import Mathlib

/-!
Verification of the event-replay / document-reconstruction engine of
`wc_analytics.py` (vim-writecontrol).  The Python source is shallowly
embedded: strings become `List Char`, Python lists become Lean lists,
Python's fallible indexing (`IndexError`) becomes `Option`, and the
replay loop becomes an `Except`-valued recursion whose errors model the
two ways the Python function can raise (`KeyError` on a missing `type`
field, `IndexError` on list indexing).
-/

set_option maxRecDepth 4000

namespace WriteControl

/-! ### Basic list operations mirroring Python list primitives -/

/-- Insert an element at position `k` (appends when `k` exceeds the length),
the effect of Python `list.insert` for an already clamped index. -/
def listInsertAt : Nat → α → List α → List α
  | 0, x, l => x :: l
  | _ + 1, x, [] => [x]
  | k + 1, x, a :: l => a :: listInsertAt k x l

/-- Remove the element at position `k`, the effect of Python `del l[k]`
for an in-range index (out-of-range leaves the list unchanged). -/
def listRemoveAt : Nat → List α → List α
  | _, [] => []
  | 0, _ :: l => l
  | k + 1, a :: l => a :: listRemoveAt k l

/-- Replace the element at position `k`, the effect of Python `l[k] = x`
for an in-range index. -/
def listSetAt : Nat → α → List α → List α
  | _, _, [] => []
  | 0, x, _ :: l => x :: l
  | k + 1, x, a :: l => a :: listSetAt k x l

theorem length_listInsertAt (k : Nat) (x : α) (l : List α) :
    (listInsertAt k x l).length = l.length + 1 := by
  induction l generalizing k with
  | nil => cases k <;> simp [listInsertAt]
  | cons a l ih =>
    cases k with
    | zero => simp [listInsertAt]
    | succ k => simp [listInsertAt, ih]

theorem length_listSetAt (k : Nat) (x : α) (l : List α) :
    (listSetAt k x l).length = l.length := by
  induction l generalizing k with
  | nil => cases k <;> simp [listSetAt]
  | cons a l ih =>
    cases k with
    | zero => simp [listSetAt]
    | succ k => simp [listSetAt, ih]

theorem length_listRemoveAt (k : Nat) (l : List α) (h : k < l.length) :
    (listRemoveAt k l).length = l.length - 1 := by
  induction l generalizing k with
  | nil => simp at h
  | cons a l ih =>
    cases k with
    | zero => simp [listRemoveAt]
    | succ k =>
      simp only [List.length_cons, Nat.succ_lt_succ_iff] at h
      have hl : 1 ≤ l.length := Nat.lt_of_le_of_lt (Nat.zero_le _) h
      simp [listRemoveAt, ih k h]
      omega

theorem get?_listSetAt_self (k : Nat) (x : α) (l : List α) (h : k < l.length) :
    (listSetAt k x l).get? k = some x := by
  induction l generalizing k with
  | nil => simp at h
  | cons a l ih =>
    cases k with
    | zero => simp [listSetAt]
    | succ k =>
      simp only [List.length_cons, Nat.succ_lt_succ_iff] at h
      simpa [listSetAt] using ih k h

theorem get?_listRemoveAt_lt (k i : Nat) (l : List α) (h : i < k) :
    (listRemoveAt k l).get? i = l.get? i := by
  induction l generalizing k i with
  | nil => simp [listRemoveAt]
  | cons a l ih =>
    cases k with
    | zero => simp at h
    | succ k =>
      cases i with
      | zero => simp [listRemoveAt]
      | succ i =>
        simp only [Nat.succ_lt_succ_iff] at h
        simpa [listRemoveAt] using ih k i h

theorem exists_get?_of_lt (l : List α) (i : Nat) (h : i < l.length) :
    ∃ x, l.get? i = some x := by
  induction l generalizing i with
  | nil => simp at h
  | cons a l ih =>
    cases i with
    | zero => exact ⟨a, rfl⟩
    | succ i =>
      simp only [List.length_cons, Nat.succ_lt_succ_iff] at h
      simpa using ih i h

theorem get?_eq_none_of_le (l : List α) (i : Nat) (h : l.length ≤ i) :
    l.get? i = none := by
  induction l generalizing i with
  | nil => simp
  | cons a l ih =>
    cases i with
    | zero => simp at h
    | succ i =>
      simp only [List.length_cons, Nat.succ_le_succ_iff] at h
      simpa using ih i h

/-! ### Python indexing semantics

Python list indexing accepts negative indices (counting from the end) and
raises `IndexError` when the index is out of range; `list.insert` instead
clamps.  `pyResolve` turns a Python index into an absolute position. -/

def pyResolve (n : Nat) (i : Int) : Option Nat :=
  if i < 0 then
    if 0 ≤ i + n then some (i + n).toNat else none
  else
    if i < n then some i.toNat else none

/-- Python `l[i]` (`IndexError` becomes `none`). -/
def pyGet (l : List α) (i : Int) : Option α :=
  (pyResolve l.length i).bind fun k => l.get? k

/-- Python `l[i] = x`. -/
def pySet (l : List α) (i : Int) (x : α) : Option (List α) :=
  (pyResolve l.length i).map fun k => listSetAt k x l

/-- Python `del l[i]`. -/
def pyDelAt (l : List α) (i : Int) : Option (List α) :=
  (pyResolve l.length i).map fun k => listRemoveAt k l

/-- Python `l.insert(i, x)` (never fails; clamps the index). -/
def pyInsert (l : List α) (i : Int) (x : α) : List α :=
  let k : Int := if i < 0 then max 0 (i + l.length) else min i l.length
  listInsertAt k.toNat x l

theorem pyResolve_of_lt (n : Nat) (k : Nat) (h : k < n) :
    pyResolve n (k : Int) = some k := by
  have h1 : ¬((k : Int) < 0) := by omega
  have h2 : (k : Int) < (n : Int) := by omega
  simp [pyResolve, h1, h2]

theorem pyGet_natCast (l : List α) (k : Nat) (h : k < l.length) :
    pyGet l (k : Int) = l.get? k := by
  simp [pyGet, pyResolve_of_lt l.length k h]

theorem pySet_natCast (l : List α) (k : Nat) (x : α) (h : k < l.length) :
    pySet l (k : Int) x = some (listSetAt k x l) := by
  simp [pySet, pyResolve_of_lt l.length k h]

theorem pyDelAt_natCast (l : List α) (k : Nat) (h : k < l.length) :
    pyDelAt l (k : Int) = some (listRemoveAt k l) := by
  simp [pyDelAt, pyResolve_of_lt l.length k h]

theorem pyInsert_natCast (l : List α) (k : Nat) (x : α) (h : k ≤ l.length) :
    pyInsert l (k : Int) x = listInsertAt k x l := by
  have h1 : ¬((k : Int) < 0) := by omega
  have h2 : min (k : Int) (l.length : Int) = (k : Int) := by omega
  simp [pyInsert, h1, h2]

/-! ### Newline splitting and joining (`str.split('\n')` / `'\n'.join`) -/

def splitNl : List Char → List (List Char)
  | [] => [[]]
  | c :: cs =>
    if c = '\n' then [] :: splitNl cs
    else
      match splitNl cs with
      | [] => [[c]]
      | l :: ls => (c :: l) :: ls

def joinNl : List (List Char) → List Char
  | [] => []
  | [l] => l
  | l :: ls => l ++ '\n' :: joinNl ls

theorem splitNl_ne_nil (s : List Char) : splitNl s ≠ [] := by
  cases s with
  | nil => simp [splitNl]
  | cons c cs =>
    simp only [splitNl]
    split
    · simp
    · split <;> simp

theorem joinNl_cons_cons (l l' : List Char) (ls : List (List Char)) :
    joinNl (l :: l' :: ls) = l ++ '\n' :: joinNl (l' :: ls) := rfl

theorem splitNl_newline (cs : List Char) : splitNl ('\n' :: cs) = [] :: splitNl cs := by
  simp [splitNl]

theorem joinNl_splitNl (s : List Char) : joinNl (splitNl s) = s := by
  induction s with
  | nil => simp [splitNl, joinNl]
  | cons c cs ih =>
    by_cases hc : c = '\n'
    · subst hc
      rw [splitNl_newline]
      obtain ⟨l, ls, hls⟩ : ∃ l ls, splitNl cs = l :: ls := by
        cases h : splitNl cs with
        | nil => exact absurd h (splitNl_ne_nil cs)
        | cons l ls => exact ⟨l, ls, rfl⟩
      rw [hls] at ih ⊢
      rw [joinNl_cons_cons]
      simpa using ih
    · simp only [splitNl]
      rw [if_neg hc]
      cases h : splitNl cs with
      | nil => exact absurd h (splitNl_ne_nil cs)
      | cons l ls =>
        rw [h] at ih
        cases ls with
        | nil => simpa [joinNl] using ih
        | cons l' ls' =>
          rw [joinNl_cons_cons]
          simpa using ih

/-! ### Position codec (`parse_position` / `encode_position`) -/

/-- Convert encoded position back to `(line, col)`. -/
def parse_position (pos : Nat) : Nat × Nat :=
  (pos / 1000, pos % 1000)

/-- Encode `(line, col)` to a single integer. -/
def encode_position (line : Nat) (col : Nat) : Nat :=
  line * 1000 + col

/-! ### Bulk-marker grammar

`re.match(r'\[(\d+) new lines?\]', content)` matches a *prefix* of
`content`: a literal `[`, one or more digits, the literal text
`" new line"`, an optional `s` and a `]`.  Since a digit can never match
the following space, the greedy `\d+` needs no backtracking and is the
maximal digit run. -/

def startsWithChars : List Char → List Char → Bool
  | [], _ => true
  | _ :: _, [] => false
  | p :: ps, c :: cs => p == c && startsWithChars ps cs

/-- Python `int()` on a non-empty digit string. -/
def charsToNat (ds : List Char) : Nat :=
  ds.foldl (fun a c => a * 10 + (c.toNat - '0'.toNat)) 0

/-- After the digits: the literal `mid` text (`" new line"` or
`" deleted line"`), an optional `s`, then `]`. -/
def markerTail (mid : List Char) (s : List Char) : Bool :=
  if startsWithChars mid s then
    let r := s.drop mid.length
    if startsWithChars [']'] r then true
    else if startsWithChars ['s', ']'] r then true
    else false
  else false

def midNew : List Char := " new line".data

def midDel : List Char := " deleted line".data

/-- Prefix match of `\[(\d+) <mid> s?\]` against `content`, returning the
parsed count on success. -/
def matchMarker (mid : List Char) (content : List Char) : Option Nat :=
  match content with
  | c :: rest =>
    if c = '[' then
      if (rest.takeWhile Char.isDigit).isEmpty then none
      else if markerTail mid (rest.dropWhile Char.isDigit) then
        some (charsToNat (rest.takeWhile Char.isDigit))
      else none
    else none
  | [] => none

/-- `content.startswith('[') and content.endswith(']')`, the guard in front
of both regex matches. -/
def isBulkGuard (content : List Char) : Bool :=
  content.head? == some '[' && content.getLast? == some ']'

/-- The combined bulk-insert test of `apply_keystroke` (bracket guard plus
regex), yielding the number of new lines. -/
def bulkInsertCount (content : List Char) : Option Nat :=
  if isBulkGuard content then matchMarker midNew content else none

/-- The combined bulk-delete test of `apply_deletion`. -/
def bulkDeleteCount (content : List Char) : Option Nat :=
  if isBulkGuard content then matchMarker midDel content else none

/-! ### Document buffer (`DocumentState`) -/

structure DocumentState where
  lines : List (List Char)
  cursor_line : Nat
  cursor_col : Nat
deriving DecidableEq

/-- `initial_content.split('\n') if initial_content else ['']` with cursor
`(1, 0)`. -/
def initDoc (initial_content : List Char) : DocumentState :=
  ⟨if initial_content = [] then [[]] else splitNl initial_content, 1, 0⟩

/-- `'\n'.join(self.lines)`. -/
def DocumentState.get_content (d : DocumentState) : List Char :=
  joinNl d.lines

/-- `set_cursor`: clamp the line into `[1, len(lines)]`, then the column
into `[0, len(line)]`.  Fails (`IndexError`) only when the buffer holds no
lines at all. -/
def DocumentState.set_cursor (d : DocumentState) (line col : Nat) : Option DocumentState :=
  match pyGet d.lines (((max 1 (min line d.lines.length) : Nat) : Int) - 1) with
  | none => none
  | some ln =>
    some ⟨d.lines, max 1 (min line d.lines.length), max 0 (min col ln.length)⟩

/-- The loop `for _ in range(n): self.lines.insert(line_idx + 1, '')`. -/
def insertEmptyLines (k : Int) : Nat → List (List Char) → List (List Char)
  | 0, ls => ls
  | n + 1, ls => insertEmptyLines k n (pyInsert ls k [])

/-- `apply_keystroke`: no-op on empty content; bulk-insert markers insert
empty lines after the cursor line; a lone line terminator splits the
current line; anything else is spliced in literally. -/
def DocumentState.apply_keystroke (d : DocumentState) (content : List Char) :
    Option DocumentState :=
  if content = [] then some d
  else
    let line_idx : Int := (d.cursor_line : Int) - 1
    match pyGet d.lines line_idx with
    | none => none
    | some line =>
      match bulkInsertCount content with
      | some new_line_count =>
        some ⟨insertEmptyLines (line_idx + 1) new_line_count d.lines,
          d.cursor_line + 1, 0⟩
      | none =>
        if content = ['\n'] ∨ content = ['\r', '\n'] then
          let before := line.take d.cursor_col
          let after := line.drop d.cursor_col
          match pySet d.lines line_idx before with
          | none => none
          | some ls => some ⟨pyInsert ls (line_idx + 1) after, d.cursor_line + 1, 0⟩
        else
          let new_line := line.take d.cursor_col ++ content ++ line.drop d.cursor_col
          match pySet d.lines line_idx new_line with
          | none => none
          | some ls => some ⟨ls, d.cursor_line, d.cursor_col + content.length⟩

/-- `range(min(del_count, len(self.lines) - line_idx))`: the iteration
count is fixed before the loop runs (an empty range when negative). -/
def iterCount (del_count : Nat) (len : Nat) (line_idx : Int) : Nat :=
  (min (del_count : Int) ((len : Int) - line_idx)).toNat

/-- The deletion loop body: `if line_idx < len(self.lines): del
self.lines[line_idx]`, repeated. -/
def bulkDeleteLoop (line_idx : Int) : Nat → List (List Char) → Option (List (List Char))
  | 0, ls => some ls
  | k + 1, ls =>
    if line_idx < (ls.length : Int) then
      match pyDelAt ls line_idx with
      | none => none
      | some ls' => bulkDeleteLoop line_idx k ls'
    else bulkDeleteLoop line_idx k ls

/-- The non-marker part of `apply_deletion`: backspace when the column is
positive, a line join when at column 0 on a line after the first, a no-op
at the very start of the document. -/
def singleCharDelete (d : DocumentState) (line : List Char) (line_idx : Int) :
    Option DocumentState :=
  if d.cursor_col > 0 then
    let new_line := line.take (d.cursor_col - 1) ++ line.drop d.cursor_col
    match pySet d.lines line_idx new_line with
    | none => none
    | some ls => some ⟨ls, d.cursor_line, d.cursor_col - 1⟩
  else if d.cursor_line > 1 then
    match pyGet d.lines (line_idx - 1) with
    | none => none
    | some prev_line =>
      match pySet d.lines (line_idx - 1) (prev_line ++ line) with
      | none => none
      | some ls =>
        match pyDelAt ls line_idx with
        | none => none
        | some ls' => some ⟨ls', d.cursor_line - 1, prev_line.length⟩
  else some d

/-- `apply_deletion`: no-op on empty content; bulk-delete markers remove up
to `N` lines starting at the cursor line (clamping the cursor afterwards
when it fell off the end); otherwise single-character deletion. -/
def DocumentState.apply_deletion (d : DocumentState) (content : List Char) :
    Option DocumentState :=
  if content = [] then some d
  else
    let line_idx : Int := (d.cursor_line : Int) - 1
    match bulkDeleteCount content with
    | some del_count =>
      match bulkDeleteLoop line_idx (iterCount del_count d.lines.length line_idx) d.lines with
      | none => none
      | some ls =>
        if line_idx ≥ (ls.length : Int) then
          some ⟨ls, ls.length, match ls.getLast? with
            | some last => last.length
            | none => 0⟩
        else some ⟨ls, d.cursor_line, d.cursor_col⟩
    | none =>
      match pyGet d.lines line_idx with
      | none => none
      | some line => singleCharDelete d line line_idx

/-! ### Digit-table-abstracted buffer operations

Python's `re` applies `\d` (with `str` patterns) to *any* Unicode decimal
digit — category `Nd`, as tabled by the interpreter's Unicode database —
and `int()` likewise accepts every such digit, so the concrete
`Char.isDigit` model above captures only the ASCII slice of the marker
grammar.  The following versions of the marker matcher and of the two
edit operations take the digit classification `dig` (Python's `\d`) and
the digit-value map `val` (Python's per-character `int` digit value) as
parameters: instantiating them with the interpreter's true tables yields
exactly the program's operations (for any `Nd` table a digit is never a
space, which is what makes the greedy `takeWhile` run below coincide with
the regex), while instantiating them with `Char.isDigit`/`digitVal`
recovers the concrete definitions above definitionally
(`apply_keystrokeW_ascii`, `apply_deletionW_ascii`). -/

/-- Digit value of an ASCII digit, `ord(c) - ord('0')`. -/
def digitVal (c : Char) : Nat :=
  c.toNat - '0'.toNat

def charsToNatW (val : Char → Nat) (ds : List Char) : Nat :=
  ds.foldl (fun a c => a * 10 + val c) 0

/-- `matchMarker` with the digit predicate and digit values abstracted. -/
def matchMarkerW (dig : Char → Bool) (val : Char → Nat) (mid content : List Char) :
    Option Nat :=
  match content with
  | c :: rest =>
    if c = '[' then
      if (rest.takeWhile dig).isEmpty then none
      else if markerTail mid (rest.dropWhile dig) then
        some (charsToNatW val (rest.takeWhile dig))
      else none
    else none
  | [] => none

def bulkInsertCountW (dig : Char → Bool) (val : Char → Nat) (content : List Char) :
    Option Nat :=
  if isBulkGuard content then matchMarkerW dig val midNew content else none

def bulkDeleteCountW (dig : Char → Bool) (val : Char → Nat) (content : List Char) :
    Option Nat :=
  if isBulkGuard content then matchMarkerW dig val midDel content else none

/-- `apply_keystroke` over an abstract digit table. -/
def apply_keystrokeW (dig : Char → Bool) (val : Char → Nat) (d : DocumentState)
    (content : List Char) : Option DocumentState :=
  if content = [] then some d
  else
    let line_idx : Int := (d.cursor_line : Int) - 1
    match pyGet d.lines line_idx with
    | none => none
    | some line =>
      match bulkInsertCountW dig val content with
      | some new_line_count =>
        some ⟨insertEmptyLines (line_idx + 1) new_line_count d.lines,
          d.cursor_line + 1, 0⟩
      | none =>
        if content = ['\n'] ∨ content = ['\r', '\n'] then
          let before := line.take d.cursor_col
          let after := line.drop d.cursor_col
          match pySet d.lines line_idx before with
          | none => none
          | some ls => some ⟨pyInsert ls (line_idx + 1) after, d.cursor_line + 1, 0⟩
        else
          let new_line := line.take d.cursor_col ++ content ++ line.drop d.cursor_col
          match pySet d.lines line_idx new_line with
          | none => none
          | some ls => some ⟨ls, d.cursor_line, d.cursor_col + content.length⟩

/-- `apply_deletion` over an abstract digit table. -/
def apply_deletionW (dig : Char → Bool) (val : Char → Nat) (d : DocumentState)
    (content : List Char) : Option DocumentState :=
  if content = [] then some d
  else
    let line_idx : Int := (d.cursor_line : Int) - 1
    match bulkDeleteCountW dig val content with
    | some del_count =>
      match bulkDeleteLoop line_idx (iterCount del_count d.lines.length line_idx) d.lines with
      | none => none
      | some ls =>
        if line_idx ≥ (ls.length : Int) then
          some ⟨ls, ls.length, match ls.getLast? with
            | some last => last.length
            | none => 0⟩
        else some ⟨ls, d.cursor_line, d.cursor_col⟩
    | none =>
      match pyGet d.lines line_idx with
      | none => none
      | some line => singleCharDelete d line line_idx

theorem matchMarkerW_ascii (mid content : List Char) :
    matchMarkerW Char.isDigit digitVal mid content = matchMarker mid content := rfl

theorem apply_keystrokeW_ascii (d : DocumentState) (content : List Char) :
    apply_keystrokeW Char.isDigit digitVal d content = d.apply_keystroke content := rfl

theorem apply_deletionW_ascii (d : DocumentState) (content : List Char) :
    apply_deletionW Char.isDigit digitVal d content = d.apply_deletion content := rfl

/-! ### Cursor invariant -/

/-- The line the cursor sits on. -/
def currLine (d : DocumentState) : List Char :=
  (d.lines.get? (d.cursor_line - 1)).getD []

/-- `1 ≤ cursor.line ≤ line_count` and `0 ≤ cursor.column ≤
length(current_line)` (the lower column bound holds by the `Nat` type). -/
def Inv (d : DocumentState) : Prop :=
  1 ≤ d.cursor_line ∧ d.cursor_line ≤ d.lines.length ∧
    d.cursor_col ≤ (currLine d).length

instance (d : DocumentState) : Decidable (Inv d) := by
  unfold Inv
  infer_instance

/-! ### Replay engine (`reconstruct_session`)

An event is a JSON record; `type` is `None` when the required field is
absent (Python then raises `KeyError`, modelled as `malformedEvent`);
`pos` and `content` are read with `.get(..., default)`.  List indexing
failures inside the buffer operations surface as `indexError`. -/

structure Event where
  type : Option (List Char)
  pos : Option Nat
  content : Option (List Char)
deriving DecidableEq

inductive ReplayErr where
  | malformedEvent
  | indexError
deriving DecidableEq

def liftOpt : Option α → Except ReplayErr α
  | some a => .ok a
  | none => .error .indexError

/-- The loop state: the live buffer plus the optional `pre_save` /
`final` entries of the `states` dict (`initial` is fixed up front). -/
structure ReplayState where
  doc : DocumentState
  pre_save : Option DocumentState
  final : Option DocumentState
deriving DecidableEq

/-- The checkpoint set returned by `reconstruct_session`: `initial` and
`final` are always present, `pre_save` only when a snapshot event was
seen. -/
structure Checkpoints where
  initial : DocumentState
  pre_save : Option DocumentState
  final : DocumentState
deriving DecidableEq

def kStr : List Char := "k".data

def dStr : List Char := "d".data

def sStr : List Char := "s".data

def endStr : List Char := "end".data

def preStr : List Char := "pre".data

/-- `if pos > 0: self.doc.set_cursor(*parse_position(pos))`. -/
def applyPos (doc : DocumentState) (e : Event) : Except ReplayErr DocumentState :=
  if e.pos.getD 0 > 0 then
    liftOpt (doc.set_cursor (parse_position (e.pos.getD 0)).1
      (parse_position (e.pos.getD 0)).2)
  else .ok doc

/-- Dispatch on the event type: `k` → keystroke, `d` → deletion, `s` with
content `pre` → snapshot the buffer as `pre_save`, `end` → snapshot the
buffer as `final`, anything else → no-op.  Checkpoints are rebuilt from
the buffer text (`DocumentState(doc.get_content())`). -/
def dispatch (st : ReplayState) (t : List Char) (content : List Char) :
    Except ReplayErr ReplayState :=
  if t = kStr then
    (liftOpt (st.doc.apply_keystroke content)).map fun d => { st with doc := d }
  else if t = dStr then
    (liftOpt (st.doc.apply_deletion content)).map fun d => { st with doc := d }
  else if t = sStr ∧ content = preStr then
    .ok { st with pre_save := some (initDoc st.doc.get_content) }
  else if t = endStr then
    .ok { st with final := some (initDoc st.doc.get_content) }
  else .ok st

/-- One iteration of the event loop: read the required `type` field, move
the cursor from the encoded position, then dispatch. -/
def stepEvent (st : ReplayState) (e : Event) : Except ReplayErr ReplayState :=
  match e.type with
  | none => .error .malformedEvent
  | some t =>
    match applyPos st.doc e with
    | .error er => .error er
    | .ok doc' => dispatch { st with doc := doc' } t (e.content.getD [])

def runEvents : List Event → ReplayState → Except ReplayErr ReplayState
  | [], st => .ok st
  | e :: es, st =>
    match stepEvent st e with
    | .error er => .error er
    | .ok st' => runEvents es st'

/-- The starting loop state of a replay over seed `initial_content`. -/
def initState (initial_content : List Char) : ReplayState :=
  ⟨initDoc initial_content, none, none⟩

/-- `reconstruct_session`: store `initial`, run the loop, and default the
`final` checkpoint to the live buffer when no end-marker produced one. -/
def reconstruct_session (events : List Event) (initial_content : List Char) :
    Except ReplayErr Checkpoints :=
  match runEvents events (initState initial_content) with
  | .error er => .error er
  | .ok st => .ok ⟨initDoc initial_content, st.pre_save, st.final.getD st.doc⟩

/-- A snapshot-marker event: type `s` with content `pre`. -/
def isSnapMarker (e : Event) : Prop :=
  e.type = some sStr ∧ e.content.getD [] = preStr

instance (e : Event) : Decidable (isSnapMarker e) := by
  unfold isSnapMarker
  infer_instance

/-- An end-marker event: type `end`. -/
def isEndMarker (e : Event) : Prop :=
  e.type = some endStr

instance (e : Event) : Decidable (isEndMarker e) := by
  unfold isEndMarker
  infer_instance

/-! ### General facts about the embedding -/

theorem get_content_initDoc (T : List Char) : (initDoc T).get_content = T := by
  by_cases h : T = []
  · subst h
    rfl
  · simp [initDoc, DocumentState.get_content, h, joinNl_splitNl]

/-! ### C6 — position codec round-trip -/

/-- C6 (confirmed): for every `line ≥ 1` and `0 ≤ column < 1000`,
`parse_position (encode_position line column) = (line, column)`; both
functions are total Lean functions, so they never fail. -/
theorem c6_position_roundtrip (line col : Nat) (h1 : 1 ≤ line) (h2 : col < 1000) :
    parse_position (encode_position line col) = (line, col) := by
  unfold parse_position encode_position
  refine Prod.ext ?_ ?_ <;> simp <;> omega

theorem c6_witness :
    1 ≤ 2 ∧ 5 < 1000 ∧ parse_position (encode_position 2 5) = (2, 5) :=
  ⟨by decide, by decide, c6_position_roundtrip 2 5 (by decide) (by decide)⟩

/-! ### C4 — replay of the empty event list -/

/-- C4 (confirmed): for every seed text `T`, replaying the empty event
list succeeds and yields a checkpoint set whose `initial` and `final`
checkpoints both carry exactly the text `T`. -/
theorem c4_empty_replay (T : List Char) :
    reconstruct_session [] T = .ok ⟨initDoc T, none, initDoc T⟩ ∧
      (initDoc T).get_content = T :=
  ⟨rfl, get_content_initDoc T⟩

/-! ### C3 — deletion event with empty content -/

/-- C3 counterexample: the code returns immediately on empty deletion
content (`if not content: return`), so replaying
`{type: deletion, pos: encode(2,0), content: ""}` over seed `"ab\ncd"`
leaves the buffer `["ab","cd"]` with cursor `(2,0)` — not the joined
`["abcd"]` with cursor `(1,2)` that the claim demands. -/
theorem c3_counterexample :
    reconstruct_session [⟨some dStr, some 2000, some []⟩] "ab\ncd".data =
      .ok ⟨initDoc "ab\ncd".data, none, ⟨["ab".data, "cd".data], 2, 0⟩⟩ ∧
    (⟨["ab".data, "cd".data], 2, 0⟩ : DocumentState) ≠ ⟨["abcd".data], 1, 2⟩ :=
  ⟨rfl, by decide⟩

/-- C3 amended: a deletion event with *empty* content is a no-op; the
join of Scenario D happens for a deletion event with any non-empty
non-marker content (here `"c"`): the buffer becomes `["abcd"]` and the
cursor moves to `(1, 2)`. -/
theorem c3_join_on_nonempty_deletion :
    reconstruct_session [⟨some dStr, some 2000, some []⟩] "ab\ncd".data =
      .ok ⟨initDoc "ab\ncd".data, none, ⟨["ab".data, "cd".data], 2, 0⟩⟩ ∧
    reconstruct_session [⟨some dStr, some 2000, some "c".data⟩] "ab\ncd".data =
      .ok ⟨initDoc "ab\ncd".data, none, ⟨["abcd".data], 1, 2⟩⟩ :=
  ⟨rfl, rfl⟩

/-! ### Counterexamples obtained by direct computation -/

/-- C1 counterexample: from the one-line buffer `[""]` (a valid state),
the bulk-delete `"[1 deleted lines]"` removes every line: the buffer ends
with zero lines (and `cursor_line = 0`), violating the never-empty
invariant. -/
theorem c1_counterexample :
    Inv ⟨[[]], 1, 0⟩ ∧
    (DocumentState.apply_deletion ⟨[[]], 1, 0⟩ "[1 deleted lines]".data).map
      (fun d => d.lines.length) = some 0 :=
  ⟨by decide, rfl⟩

/-- C2 counterexample: the bulk-insert marker `"[0 new lines]"` inserts no
lines but still advances `cursor_line` by one, so from the valid state
`([""], 1, 0)` the cursor ends at line 2 of a 1-line buffer. -/
theorem c2_counterexample :
    Inv ⟨[[]], 1, 0⟩ ∧
    DocumentState.apply_keystroke ⟨[[]], 1, 0⟩ "[0 new lines]".data =
      some ⟨[[]], 2, 0⟩ ∧
    ¬ Inv ⟨[[]], 2, 0⟩ :=
  ⟨by decide, rfl, by decide⟩

/-- C5 counterexample: a stream whose third event lacks `type` can still
fail with an index error (the buffer was emptied by a bulk delete and the
following keystroke raises before the missing field is ever read), so the
failure is not `MalformedEvent`. -/
theorem c5_counterexample :
    (∃ e ∈ [(⟨some dStr, none, some "[1 deleted lines]".data⟩ : Event),
            ⟨some kStr, none, some "x".data⟩, ⟨none, none, none⟩], e.type = none) ∧
    reconstruct_session
      [⟨some dStr, none, some "[1 deleted lines]".data⟩,
       ⟨some kStr, none, some "x".data⟩, ⟨none, none, none⟩] [] =
      .error .indexError ∧
    ReplayErr.indexError ≠ ReplayErr.malformedEvent :=
  ⟨by decide, rfl, by decide⟩

/-- C7 counterexample: take `X = "3 new lines] [4"`, which is neither a
non-negative integer nor numeric at all.  The content
`"[" + X + " new lines]" = "[3 new lines] [4 new lines]"` is nevertheless
treated as a bulk marker (the regex matches a prefix), inserting three
empty lines instead of splicing the text literally into the single line. -/
theorem c7_counterexample :
    ¬("3 new lines] [4".data ≠ [] ∧ "3 new lines] [4".data.all Char.isDigit = true) ∧
    ('[' :: "3 new lines] [4".data ++ " new lines]".data =
      "[3 new lines] [4 new lines]".data) ∧
    DocumentState.apply_keystroke ⟨["ab".data], 1, 0⟩
      "[3 new lines] [4 new lines]".data =
      some ⟨["ab".data, [], [], []], 2, 0⟩ ∧
    (["ab".data, [], [], []] : List (List Char)).length ≠ 1 :=
  ⟨by decide, rfl, rfl, by decide⟩

/-- C8 counterexample: this stream has a snapshot-marker followed by edit
events and an end-marker, yet replay aborts with an index error (the bulk
delete empties the buffer and the next keystroke raises), so no checkpoint
set is returned at all. -/
theorem c8_counterexample :
    reconstruct_session
      [⟨some sStr, none, some preStr⟩,
       ⟨some dStr, none, some "[1 deleted lines]".data⟩,
       ⟨some kStr, none, some "x".data⟩, ⟨some endStr, none, none⟩] [] =
      .error .indexError :=
  rfl

/-- C9 counterexample: a stream with two snapshot-markers on which replay
aborts (index error after the buffer is emptied), so no `pre_save`
checkpoint is returned at all. -/
theorem c9_counterexample :
    reconstruct_session
      [⟨some sStr, none, some preStr⟩, ⟨some sStr, none, some preStr⟩,
       ⟨some dStr, none, some "[1 deleted lines]".data⟩,
       ⟨some kStr, none, some "x".data⟩] [] =
      .error .indexError :=
  rfl

/-- C10 counterexample: a stream containing end-markers on which replay
aborts (index error), so there is no final checkpoint whose text could
equal the buffer text at the last end-marker. -/
theorem c10_counterexample :
    reconstruct_session
      [⟨some endStr, none, none⟩,
       ⟨some dStr, none, some "[1 deleted lines]".data⟩,
       ⟨some kStr, none, some "x".data⟩, ⟨some endStr, none, none⟩] [] =
      .error .indexError :=
  rfl

/-! ### Structural lemmas about the replay loop -/

theorem runEvents_append (l₁ l₂ : List Event) (st : ReplayState) :
    runEvents (l₁ ++ l₂) st =
      match runEvents l₁ st with
      | .error er => .error er
      | .ok st' => runEvents l₂ st' := by
  induction l₁ generalizing st with
  | nil => rfl
  | cons e es ih =>
    simp only [List.cons_append, runEvents]
    cases stepEvent st e with
    | error er => rfl
    | ok st' => exact ih st'

theorem runEvents_append_ok (l₁ l₂ : List Event) (st st' : ReplayState)
    (h : runEvents (l₁ ++ l₂) st = .ok st') :
    ∃ m, runEvents l₁ st = .ok m ∧ runEvents l₂ m = .ok st' := by
  rw [runEvents_append] at h
  cases hm : runEvents l₁ st with
  | error er => rw [hm] at h; exact absurd h (by simp)
  | ok m => rw [hm] at h; exact ⟨m, rfl, h⟩

theorem applyPos_ne_malformed (doc : DocumentState) (e : Event) :
    applyPos doc e ≠ .error .malformedEvent := by
  unfold applyPos
  split
  · cases doc.set_cursor (parse_position (e.pos.getD 0)).1 (parse_position (e.pos.getD 0)).2 <;>
      simp [liftOpt]
  · simp

theorem dispatch_ne_malformed (st : ReplayState) (t content : List Char) :
    dispatch st t content ≠ .error .malformedEvent := by
  unfold dispatch
  split
  · cases st.doc.apply_keystroke content <;> simp [liftOpt, Except.map]
  · split
    · cases st.doc.apply_deletion content <;> simp [liftOpt, Except.map]
    · split
      · simp
      · split <;> simp

theorem stepEvent_ne_malformed (st : ReplayState) (e : Event) (h : e.type ≠ none) :
    stepEvent st e ≠ .error .malformedEvent := by
  unfold stepEvent
  cases ht : e.type with
  | none => exact absurd ht h
  | some t =>
    cases hp : applyPos st.doc e with
    | error er =>
      have := applyPos_ne_malformed st.doc e
      rw [hp] at this
      simpa using this
    | ok doc' => exact dispatch_ne_malformed _ t _

theorem runEvents_ne_malformed (l : List Event) (st : ReplayState)
    (h : ∀ e ∈ l, e.type ≠ none) :
    runEvents l st ≠ .error .malformedEvent := by
  induction l generalizing st with
  | nil => simp [runEvents]
  | cons e es ih =>
    simp only [runEvents]
    cases hs : stepEvent st e with
    | error er =>
      have := stepEvent_ne_malformed st e (h e (by simp))
      rw [hs] at this
      simpa using this
    | ok st' => exact ih st' fun e' he' => h e' (by simp [he'])

theorem runEvents_error_of_untyped (l : List Event) (st : ReplayState)
    (h : ∃ e ∈ l, e.type = none) :
    ∃ er, runEvents l st = .error er := by
  induction l generalizing st with
  | nil => simp at h
  | cons e es ih =>
    simp only [runEvents]
    cases hs : stepEvent st e with
    | error er => exact ⟨er, rfl⟩
    | ok st' =>
      rcases h with ⟨e', he', ht⟩
      rcases List.mem_cons.mp he' with rfl | hmem
      · rw [stepEvent, ht] at hs
        exact absurd hs (by simp)
      · exact ih st' ⟨e', hmem, ht⟩

/-! ### C5 — failure semantics of the missing `type` field -/

/-- C5 amended: a stream containing an untyped event never yields a
checkpoint set (replay always fails with *some* error), and a stream in
which every event is typed never fails with `MalformedEvent` — but the
original claim's stronger promise that the failure *is* `MalformedEvent`
is refuted by `c5_counterexample`, where an earlier edit raises an index
error first. -/
theorem c5_missing_type (events : List Event) (T : List Char) :
    ((∃ e ∈ events, e.type = none) →
      ∃ er, reconstruct_session events T = .error er) ∧
    ((∀ e ∈ events, e.type ≠ none) →
      reconstruct_session events T ≠ .error .malformedEvent) := by
  constructor
  · intro h
    obtain ⟨er, her⟩ := runEvents_error_of_untyped events (initState T) h
    exact ⟨er, by rw [reconstruct_session, her]⟩
  · intro h
    rw [reconstruct_session]
    cases hr : runEvents events (initState T) with
    | error er =>
      have := runEvents_ne_malformed events (initState T) h
      rw [hr] at this
      simpa using this
    | ok st => simp

theorem c5_witness :
    (∃ e ∈ [(⟨none, none, none⟩ : Event)], e.type = none) ∧
    (∃ er, reconstruct_session [(⟨none, none, none⟩ : Event)] [] = .error er) ∧
    (∀ e ∈ [(⟨some kStr, none, some "x".data⟩ : Event)], e.type ≠ none) ∧
    reconstruct_session [(⟨some kStr, none, some "x".data⟩ : Event)] [] ≠
      .error .malformedEvent :=
  ⟨by decide,
   (c5_missing_type [⟨none, none, none⟩] []).1 (by decide),
   by decide,
   (c5_missing_type [⟨some kStr, none, some "x".data⟩] []).2 (by decide)⟩

/-! ### Checkpoint-copy lemmas -/

theorem set_cursor_lines (d d' : DocumentState) (line col : Nat)
    (h : d.set_cursor line col = some d') : d'.lines = d.lines := by
  unfold DocumentState.set_cursor at h
  split at h
  · exact absurd h (by simp)
  · cases h
    rfl

theorem applyPos_lines (doc doc' : DocumentState) (e : Event)
    (h : applyPos doc e = .ok doc') : doc'.lines = doc.lines := by
  unfold applyPos at h
  split at h
  · cases hs : doc.set_cursor (parse_position (e.pos.getD 0)).1 (parse_position (e.pos.getD 0)).2 with
    | none => rw [hs] at h; simp [liftOpt] at h
    | some d2 =>
      rw [hs] at h
      simp only [liftOpt] at h
      cases h
      exact set_cursor_lines doc _ _ _ hs
  · cases h
    rfl

theorem get_content_congr (d d' : DocumentState) (h : d.lines = d'.lines) :
    d.get_content = d'.get_content := by
  unfold DocumentState.get_content
  rw [h]

theorem dispatch_snap (st : ReplayState) :
    dispatch st sStr preStr = .ok { st with pre_save := some (initDoc st.doc.get_content) } := by
  unfold dispatch
  rw [if_neg (by decide), if_neg (by decide), if_pos ⟨rfl, rfl⟩]

theorem dispatch_end (st : ReplayState) (content : List Char) :
    dispatch st endStr content = .ok { st with final := some (initDoc st.doc.get_content) } := by
  unfold dispatch
  rw [if_neg (by decide), if_neg (by decide),
    if_neg (fun hc => absurd hc.1 (by decide)), if_pos rfl]

theorem dispatch_pre_save_stable (st st' : ReplayState) (t content : List Char)
    (hns : ¬(t = sStr ∧ content = preStr)) (h : dispatch st t content = .ok st') :
    st'.pre_save = st.pre_save := by
  unfold dispatch at h
  by_cases h1 : t = kStr
  · rw [if_pos h1] at h
    cases hk : st.doc.apply_keystroke content with
    | none => rw [hk] at h; simp [liftOpt, Except.map] at h
    | some d2 => rw [hk] at h; simp only [liftOpt, Except.map] at h; cases h; rfl
  · rw [if_neg h1] at h
    by_cases h2 : t = dStr
    · rw [if_pos h2] at h
      cases hk : st.doc.apply_deletion content with
      | none => rw [hk] at h; simp [liftOpt, Except.map] at h
      | some d2 => rw [hk] at h; simp only [liftOpt, Except.map] at h; cases h; rfl
    · rw [if_neg h2, if_neg hns] at h
      by_cases h4 : t = endStr
      · rw [if_pos h4] at h; cases h; rfl
      · rw [if_neg h4] at h; cases h; rfl

theorem dispatch_final_stable (st st' : ReplayState) (t content : List Char)
    (hne : t ≠ endStr) (h : dispatch st t content = .ok st') :
    st'.final = st.final := by
  unfold dispatch at h
  by_cases h1 : t = kStr
  · rw [if_pos h1] at h
    cases hk : st.doc.apply_keystroke content with
    | none => rw [hk] at h; simp [liftOpt, Except.map] at h
    | some d2 => rw [hk] at h; simp only [liftOpt, Except.map] at h; cases h; rfl
  · rw [if_neg h1] at h
    by_cases h2 : t = dStr
    · rw [if_pos h2] at h
      cases hk : st.doc.apply_deletion content with
      | none => rw [hk] at h; simp [liftOpt, Except.map] at h
      | some d2 => rw [hk] at h; simp only [liftOpt, Except.map] at h; cases h; rfl
    · rw [if_neg h2] at h
      by_cases h3 : t = sStr ∧ content = preStr
      · rw [if_pos h3] at h; cases h; rfl
      · rw [if_neg h3, if_neg hne] at h; cases h; rfl

theorem stepEvent_eq_dispatch (st : ReplayState) (e : Event) (t : List Char)
    (ht : e.type = some t) (st' : ReplayState) (h : stepEvent st e = .ok st') :
    ∃ doc', applyPos st.doc e = .ok doc' ∧ doc'.lines = st.doc.lines ∧
      dispatch { st with doc := doc' } t (e.content.getD []) = .ok st' := by
  unfold stepEvent at h
  rw [ht] at h
  cases hp : applyPos st.doc e with
  | error er => rw [hp] at h; simp at h
  | ok doc' =>
    rw [hp] at h
    exact ⟨doc', rfl, applyPos_lines st.doc doc' e hp, h⟩

theorem stepEvent_snap (st st' : ReplayState) (e : Event)
    (hsnap : isSnapMarker e) (h : stepEvent st e = .ok st') :
    st'.pre_save = some (initDoc st.doc.get_content) ∧ st'.final = st.final := by
  obtain ⟨ht, hc⟩ := hsnap
  obtain ⟨doc', _, hlines, hd⟩ := stepEvent_eq_dispatch st e sStr ht st' h
  rw [hc, dispatch_snap] at hd
  cases hd
  constructor
  · show some (initDoc doc'.get_content) = some (initDoc st.doc.get_content)
    rw [get_content_congr doc' st.doc hlines]
  · rfl

theorem stepEvent_end (st st' : ReplayState) (e : Event)
    (hend : isEndMarker e) (h : stepEvent st e = .ok st') :
    st'.final = some (initDoc st.doc.get_content) ∧ st'.pre_save = st.pre_save := by
  obtain ⟨doc', _, hlines, hd⟩ := stepEvent_eq_dispatch st e endStr hend st' h
  rw [dispatch_end] at hd
  cases hd
  constructor
  · show some (initDoc doc'.get_content) = some (initDoc st.doc.get_content)
    rw [get_content_congr doc' st.doc hlines]
  · rfl

theorem stepEvent_pre_save_stable (st st' : ReplayState) (e : Event)
    (hno : ¬ isSnapMarker e) (h : stepEvent st e = .ok st') :
    st'.pre_save = st.pre_save := by
  cases ht : e.type with
  | none => unfold stepEvent at h; rw [ht] at h; simp at h
  | some t =>
    obtain ⟨doc', _, _, hd⟩ := stepEvent_eq_dispatch st e t ht st' h
    exact dispatch_pre_save_stable { st with doc := doc' } st' t (e.content.getD [])
      (fun hc => hno ⟨by rw [ht, hc.1], hc.2⟩) hd

theorem stepEvent_final_stable (st st' : ReplayState) (e : Event)
    (hno : ¬ isEndMarker e) (h : stepEvent st e = .ok st') :
    st'.final = st.final := by
  cases ht : e.type with
  | none => unfold stepEvent at h; rw [ht] at h; simp at h
  | some t =>
    obtain ⟨doc', _, _, hd⟩ := stepEvent_eq_dispatch st e t ht st' h
    exact dispatch_final_stable { st with doc := doc' } st' t (e.content.getD [])
      (fun hc => hno (by rw [isEndMarker, ht, hc])) hd

theorem runEvents_pre_save_stable (l : List Event) (st st' : ReplayState)
    (hno : ∀ e ∈ l, ¬ isSnapMarker e) (h : runEvents l st = .ok st') :
    st'.pre_save = st.pre_save := by
  induction l generalizing st with
  | nil => rw [runEvents] at h; cases h; rfl
  | cons e es ih =>
    rw [runEvents] at h
    cases hs : stepEvent st e with
    | error er => rw [hs] at h; simp at h
    | ok st₁ =>
      rw [hs] at h
      rw [ih st₁ (fun e' he' => hno e' (by simp [he'])) h]
      exact stepEvent_pre_save_stable st st₁ e (hno e (by simp)) hs

theorem runEvents_final_stable (l : List Event) (st st' : ReplayState)
    (hno : ∀ e ∈ l, ¬ isEndMarker e) (h : runEvents l st = .ok st') :
    st'.final = st.final := by
  induction l generalizing st with
  | nil => rw [runEvents] at h; cases h; rfl
  | cons e es ih =>
    rw [runEvents] at h
    cases hs : stepEvent st e with
    | error er => rw [hs] at h; simp at h
    | ok st₁ =>
      rw [hs] at h
      rw [ih st₁ (fun e' he' => hno e' (by simp [he'])) h]
      exact stepEvent_final_stable st st₁ e (hno e (by simp)) hs

/-! ### C8 — snapshot-marker checkpointing -/

/-- C8 amended: for a stream `evs₁ ++ snap :: evs₂` (snapshot-marker
followed by further events including an end-marker, with no later
snapshot) **on which replay succeeds**, the checkpoint set carries all
three names — `initial` and `final` are always present by construction,
and `pre_save` is present — and the `pre_save` text equals the buffer
text just after the prefix `evs₁`, i.e. at the snapshot moment, untouched
by the edits in `evs₂`.  (Replay may instead abort with an index error:
`c8_counterexample`.) -/
theorem c8_snapshot_checkpoint (evs₁ evs₂ : List Event) (snap : Event) (T : List Char)
    (r : Checkpoints) (hsnap : isSnapMarker snap)
    (hno : ∀ e ∈ evs₂, ¬ isSnapMarker e)
    (hend : ∃ e ∈ evs₂, isEndMarker e)
    (hok : reconstruct_session (evs₁ ++ snap :: evs₂) T = .ok r) :
    ∃ m, runEvents evs₁ (initState T) = .ok m ∧
      r.initial = initDoc T ∧
      ∃ c, r.pre_save = some c ∧ c.get_content = m.doc.get_content := by
  unfold reconstruct_session at hok
  cases hrun : runEvents (evs₁ ++ snap :: evs₂) (initState T) with
  | error er => rw [hrun] at hok; simp at hok
  | ok st =>
    rw [hrun] at hok
    cases hok
    obtain ⟨m, hm, hrest⟩ := runEvents_append_ok evs₁ (snap :: evs₂) _ st hrun
    simp only [runEvents] at hrest
    cases hs : stepEvent m snap with
    | error er => rw [hs] at hrest; simp at hrest
    | ok m₂ =>
      rw [hs] at hrest
      obtain ⟨hps, _⟩ := stepEvent_snap m m₂ snap hsnap hs
      have hstable := runEvents_pre_save_stable evs₂ m₂ st hno hrest
      refine ⟨m, hm, rfl, initDoc m.doc.get_content, ?_, get_content_initDoc _⟩
      show st.pre_save = some (initDoc m.doc.get_content)
      rw [hstable, hps]

theorem c8_witness :
    ∃ m, runEvents [(⟨some kStr, none, some "hi".data⟩ : Event)] (initState []) = .ok m ∧
      (⟨initDoc [], some ⟨["hi".data], 1, 0⟩, ⟨["hi!".data], 1, 0⟩⟩ : Checkpoints).initial =
        initDoc [] ∧
      ∃ c, (⟨initDoc [], some ⟨["hi".data], 1, 0⟩, ⟨["hi!".data], 1, 0⟩⟩ : Checkpoints).pre_save =
        some c ∧ c.get_content = m.doc.get_content :=
  c8_snapshot_checkpoint
    [⟨some kStr, none, some "hi".data⟩]
    [⟨some kStr, none, some "!".data⟩, ⟨some endStr, none, none⟩]
    ⟨some sStr, none, some preStr⟩ []
    ⟨initDoc [], some ⟨["hi".data], 1, 0⟩, ⟨["hi!".data], 1, 0⟩⟩
    (by decide) (by decide) (by decide) rfl

/-! ### C9 — the last snapshot-marker wins -/

/-- C9 amended: for a stream `evs₁ ++ snap :: evs₂` whose last
snapshot-marker is `snap` and with at least one earlier snapshot-marker
in `evs₁`, **when replay succeeds** the single `pre_save` checkpoint's
text equals the buffer text at that last marker (the buffer after
`evs₁`): each later snapshot overwrote the earlier entry.  (Replay may
instead abort with an index error: `c9_counterexample`.) -/
theorem c9_last_snapshot (evs₁ evs₂ : List Event) (snap : Event) (T : List Char)
    (r : Checkpoints) (hsnap : isSnapMarker snap)
    (hprev : ∃ e ∈ evs₁, isSnapMarker e)
    (hno : ∀ e ∈ evs₂, ¬ isSnapMarker e)
    (hok : reconstruct_session (evs₁ ++ snap :: evs₂) T = .ok r) :
    ∃ m, runEvents evs₁ (initState T) = .ok m ∧
      ∃ c, r.pre_save = some c ∧ c.get_content = m.doc.get_content := by
  unfold reconstruct_session at hok
  cases hrun : runEvents (evs₁ ++ snap :: evs₂) (initState T) with
  | error er => rw [hrun] at hok; simp at hok
  | ok st =>
    rw [hrun] at hok
    cases hok
    obtain ⟨m, hm, hrest⟩ := runEvents_append_ok evs₁ (snap :: evs₂) _ st hrun
    simp only [runEvents] at hrest
    cases hs : stepEvent m snap with
    | error er => rw [hs] at hrest; simp at hrest
    | ok m₂ =>
      rw [hs] at hrest
      obtain ⟨hps, _⟩ := stepEvent_snap m m₂ snap hsnap hs
      have hstable := runEvents_pre_save_stable evs₂ m₂ st hno hrest
      refine ⟨m, hm, initDoc m.doc.get_content, ?_, get_content_initDoc _⟩
      show st.pre_save = some (initDoc m.doc.get_content)
      rw [hstable, hps]

theorem c9_witness :
    ∃ m, runEvents
      [(⟨some kStr, none, some "a".data⟩ : Event), ⟨some sStr, none, some preStr⟩,
       ⟨some kStr, none, some "b".data⟩] (initState []) = .ok m ∧
      ∃ c, (⟨initDoc [], some ⟨["ab".data], 1, 0⟩, ⟨["abc".data], 1, 0⟩⟩ : Checkpoints).pre_save =
        some c ∧ c.get_content = m.doc.get_content :=
  c9_last_snapshot
    [⟨some kStr, none, some "a".data⟩, ⟨some sStr, none, some preStr⟩,
     ⟨some kStr, none, some "b".data⟩]
    [⟨some kStr, none, some "c".data⟩, ⟨some endStr, none, none⟩]
    ⟨some sStr, none, some preStr⟩ []
    ⟨initDoc [], some ⟨["ab".data], 1, 0⟩, ⟨["abc".data], 1, 0⟩⟩
    (by decide) (by decide) (by decide) rfl

/-! ### C10 — end-markers do not terminate replay -/

/-- C10 amended: an end-marker does not stop the loop — the events of
`evs₂` are still processed (indeed they can make replay fail,
`c10_counterexample`) and a later end-marker would overwrite `final`; for
a stream `evs₁ ++ endE :: evs₂` whose *last* end-marker is `endE`, **when
replay succeeds** the `final` checkpoint's text equals the buffer text
after the prefix `evs₁`, i.e. at the last end-marker, excluding the edits
of `evs₂`. -/
theorem c10_end_final (evs₁ evs₂ : List Event) (endE : Event) (T : List Char)
    (r : Checkpoints) (hendm : isEndMarker endE)
    (hno : ∀ e ∈ evs₂, ¬ isEndMarker e)
    (hok : reconstruct_session (evs₁ ++ endE :: evs₂) T = .ok r) :
    ∃ m, runEvents evs₁ (initState T) = .ok m ∧
      r.final.get_content = m.doc.get_content := by
  unfold reconstruct_session at hok
  cases hrun : runEvents (evs₁ ++ endE :: evs₂) (initState T) with
  | error er => rw [hrun] at hok; simp at hok
  | ok st =>
    rw [hrun] at hok
    cases hok
    obtain ⟨m, hm, hrest⟩ := runEvents_append_ok evs₁ (endE :: evs₂) _ st hrun
    simp only [runEvents] at hrest
    cases hs : stepEvent m endE with
    | error er => rw [hs] at hrest; simp at hrest
    | ok m₂ =>
      rw [hs] at hrest
      obtain ⟨hfin, _⟩ := stepEvent_end m m₂ endE hendm hs
      have hstable := runEvents_final_stable evs₂ m₂ st hno hrest
      refine ⟨m, hm, ?_⟩
      show (st.final.getD st.doc).get_content = m.doc.get_content
      rw [hstable, hfin]
      exact get_content_initDoc _

theorem c10_witness :
    ∃ m, runEvents
      [(⟨some kStr, none, some "a".data⟩ : Event), ⟨some endStr, none, none⟩,
       ⟨some kStr, none, some "b".data⟩] (initState []) = .ok m ∧
      (⟨initDoc [], none, ⟨["ab".data], 1, 0⟩⟩ : Checkpoints).final.get_content =
        m.doc.get_content :=
  c10_end_final
    [⟨some kStr, none, some "a".data⟩, ⟨some endStr, none, none⟩,
     ⟨some kStr, none, some "b".data⟩]
    [⟨some kStr, none, some "c".data⟩]
    ⟨some endStr, none, none⟩ []
    ⟨initDoc [], none, ⟨["ab".data], 1, 0⟩⟩
    (by decide) (by decide) rfl

/-! ### Invariant preservation (C2) -/

theorem length_pyInsert (l : List α) (i : Int) (x : α) :
    (pyInsert l i x).length = l.length + 1 := by
  unfold pyInsert
  exact length_listInsertAt _ _ _

theorem length_insertEmptyLines (k : Int) (n : Nat) (ls : List (List Char)) :
    (insertEmptyLines k n ls).length = ls.length + n := by
  induction n generalizing ls with
  | zero => rfl
  | succ n ih =>
    simp only [insertEmptyLines]
    rw [ih, length_pyInsert]
    omega

theorem get?_currLine (d : DocumentState) (h : d.cursor_line - 1 < d.lines.length) :
    d.lines.get? (d.cursor_line - 1) = some (currLine d) := by
  unfold currLine
  obtain ⟨ln, hln⟩ := exists_get?_of_lt d.lines (d.cursor_line - 1) h
  rw [hln]
  rfl

theorem inv_set_cursor (d : DocumentState) (hd : Inv d) (line col : Nat) :
    ∃ d', d.set_cursor line col = some d' ∧ Inv d' := by
  obtain ⟨h1, h2, _⟩ := hd
  have hlen : 1 ≤ d.lines.length := le_trans h1 h2
  unfold DocumentState.set_cursor
  generalize hcla : max 1 (min line d.lines.length) = cl'
  have hc1 : 1 ≤ cl' := by omega
  have hc2 : cl' ≤ d.lines.length := by omega
  obtain ⟨ln, hln⟩ := exists_get?_of_lt d.lines (cl' - 1) (by omega)
  rw [show ((cl' : Int) - 1) = ((cl' - 1 : Nat) : Int) by omega,
    pyGet_natCast _ _ (by omega), hln]
  refine ⟨_, rfl, ?_⟩
  unfold Inv
  refine ⟨hc1, hc2, ?_⟩
  simp only [currLine, hln, Option.getD_some]
  omega

theorem inv_apply_keystrokeW (dig : Char → Bool) (val : Char → Nat)
    (d : DocumentState) (hd : Inv d) (content : List Char)
    (h0 : bulkInsertCountW dig val content ≠ some 0) :
    ∃ d', apply_keystrokeW dig val d content = some d' ∧ Inv d' := by
  obtain ⟨h1, h2, h3⟩ := hd
  by_cases hc : content = []
  · subst hc
    exact ⟨d, rfl, h1, h2, h3⟩
  · unfold apply_keystrokeW
    rw [if_neg hc]
    have hlt : d.cursor_line - 1 < d.lines.length := by omega
    rw [show ((d.cursor_line : Int) - 1) = ((d.cursor_line - 1 : Nat) : Int) by omega]
    dsimp only
    rw [pyGet_natCast _ _ hlt, get?_currLine d hlt]
    dsimp only
    cases hb : bulkInsertCountW dig val content with
    | some n =>
      have hn : n ≠ 0 := fun hh => h0 (hh ▸ hb)
      refine ⟨_, rfl, ?_⟩
      unfold Inv
      dsimp only
      refine ⟨by omega, ?_, Nat.zero_le _⟩
      rw [length_insertEmptyLines]
      omega
    | none =>
      by_cases hnl : content = ['\n'] ∨ content = ['\r', '\n']
      · rw [if_pos hnl, pySet_natCast _ _ _ hlt]
        dsimp only
        refine ⟨_, rfl, ?_⟩
        unfold Inv
        dsimp only
        refine ⟨by omega, ?_, Nat.zero_le _⟩
        rw [length_pyInsert, length_listSetAt]
        omega
      · rw [if_neg hnl, pySet_natCast _ _ _ hlt]
        dsimp only
        refine ⟨_, rfl, ?_⟩
        unfold Inv
        dsimp only
        refine ⟨h1, by rw [length_listSetAt]; exact h2, ?_⟩
        have hcurr : currLine ⟨listSetAt (d.cursor_line - 1)
            ((currLine d).take d.cursor_col ++ content ++ (currLine d).drop d.cursor_col)
            d.lines, d.cursor_line, d.cursor_col + content.length⟩ =
            (currLine d).take d.cursor_col ++ content ++ (currLine d).drop d.cursor_col := by
          unfold currLine
          dsimp only
          rw [get?_listSetAt_self _ _ _ hlt]
          rfl
        rw [hcurr]
        simp only [List.length_append, List.length_take, List.length_drop]
        omega

theorem inv_apply_deletionW (dig : Char → Bool) (val : Char → Nat)
    (d : DocumentState) (hd : Inv d) (content : List Char)
    (hnb : bulkDeleteCountW dig val content = none) :
    ∃ d', apply_deletionW dig val d content = some d' ∧ Inv d' := by
  obtain ⟨h1, h2, h3⟩ := hd
  by_cases hc : content = []
  · subst hc
    exact ⟨d, rfl, h1, h2, h3⟩
  · unfold apply_deletionW
    rw [if_neg hc, hnb]
    dsimp only
    have hlt : d.cursor_line - 1 < d.lines.length := by omega
    rw [show ((d.cursor_line : Int) - 1) = ((d.cursor_line - 1 : Nat) : Int) by omega,
      pyGet_natCast _ _ hlt, get?_currLine d hlt]
    dsimp only
    unfold singleCharDelete
    by_cases hcol : d.cursor_col > 0
    · rw [if_pos hcol]
      dsimp only
      rw [pySet_natCast _ _ _ hlt]
      dsimp only
      refine ⟨_, rfl, ?_⟩
      unfold Inv
      dsimp only
      refine ⟨h1, by rw [length_listSetAt]; exact h2, ?_⟩
      have hcurr : currLine ⟨listSetAt (d.cursor_line - 1)
          ((currLine d).take (d.cursor_col - 1) ++ (currLine d).drop d.cursor_col)
          d.lines, d.cursor_line, d.cursor_col - 1⟩ =
          (currLine d).take (d.cursor_col - 1) ++ (currLine d).drop d.cursor_col := by
        unfold currLine
        dsimp only
        rw [get?_listSetAt_self _ _ _ hlt]
        rfl
      rw [hcurr]
      simp only [List.length_append, List.length_take, List.length_drop]
      omega
    · rw [if_neg hcol]
      by_cases hl2 : d.cursor_line > 1
      · rw [if_pos hl2]
        have hlt2 : d.cursor_line - 2 < d.lines.length := by omega
        rw [show ((d.cursor_line - 1 : Nat) : Int) - 1 = ((d.cursor_line - 2 : Nat) : Int)
          by omega, pyGet_natCast _ _ hlt2]
        obtain ⟨prev, hprev⟩ := exists_get?_of_lt d.lines (d.cursor_line - 2) hlt2
        rw [hprev]
        dsimp only
        rw [pySet_natCast _ _ _ hlt2]
        dsimp only
        rw [pyDelAt_natCast _ _ (by rw [length_listSetAt]; exact hlt)]
        dsimp only
        refine ⟨_, rfl, ?_⟩
        unfold Inv
        dsimp only
        refine ⟨by omega, ?_, ?_⟩
        · rw [length_listRemoveAt _ _ (by rw [length_listSetAt]; exact hlt),
            length_listSetAt]
          omega
        · have hcurr : currLine ⟨listRemoveAt (d.cursor_line - 1)
              (listSetAt (d.cursor_line - 2) (prev ++ currLine d) d.lines),
              d.cursor_line - 1, prev.length⟩ = prev ++ currLine d := by
            have hidx : d.cursor_line - 1 - 1 = d.cursor_line - 2 := by omega
            simp only [currLine, hidx,
              get?_listRemoveAt_lt (d.cursor_line - 1) (d.cursor_line - 2) _ (by omega),
              get?_listSetAt_self _ _ _ hlt2, Option.getD_some]
          rw [hcurr]
          simp
      · rw [if_neg hl2]
        exact ⟨d, rfl, h1, h2, h3⟩

/-- C2 amended: from any state satisfying the cursor invariant,
`set_cursor` with any arguments, `insert` with any content *except* a
bulk-insert marker counting zero lines, and `delete` with any non-marker
content all succeed and re-establish the invariant — for *every* digit
classification `dig` and digit-value map `val`, hence in particular for
the interpreter's true Unicode `\d` tables, under which
`apply_keystrokeW`/`apply_deletionW` are exactly the program's operations
(the ASCII instance is the concrete embedding, `apply_keystrokeW_ascii`).
The two excluded operation classes genuinely break the invariant:
`c2_counterexample` (bulk insert of zero lines) and `c1_counterexample`
(bulk delete emptying the buffer). -/
theorem c2_invariant_preserved (dig : Char → Bool) (val : Char → Nat)
    (d : DocumentState) (hd : Inv d) :
    (∀ line col, ∃ d', d.set_cursor line col = some d' ∧ Inv d') ∧
    (∀ content, bulkInsertCountW dig val content ≠ some 0 →
      ∃ d', apply_keystrokeW dig val d content = some d' ∧ Inv d') ∧
    (∀ content, bulkDeleteCountW dig val content = none →
      ∃ d', apply_deletionW dig val d content = some d' ∧ Inv d') :=
  ⟨fun line col => inv_set_cursor d hd line col,
   fun content h => inv_apply_keystrokeW dig val d hd content h,
   fun content h => inv_apply_deletionW dig val d hd content h⟩

theorem c2_witness :
    Inv ⟨["ab".data], 1, 1⟩ ∧
    (∃ d', DocumentState.set_cursor ⟨["ab".data], 1, 1⟩ 5 7 = some d' ∧ Inv d') ∧
    (∃ d', apply_keystrokeW Char.isDigit digitVal ⟨["ab".data], 1, 1⟩ "x".data =
      some d' ∧ Inv d') ∧
    (∃ d', apply_deletionW Char.isDigit digitVal ⟨["ab".data], 1, 1⟩ "x".data =
      some d' ∧ Inv d') :=
  ⟨by decide,
   (c2_invariant_preserved Char.isDigit digitVal ⟨["ab".data], 1, 1⟩ (by decide)).1 5 7,
   (c2_invariant_preserved Char.isDigit digitVal ⟨["ab".data], 1, 1⟩ (by decide)).2.1
     "x".data (by decide),
   (c2_invariant_preserved Char.isDigit digitVal ⟨["ab".data], 1, 1⟩ (by decide)).2.2
     "x".data (by decide)⟩

/-! ### C1 — line count after a bulk delete -/

theorem bulkDeleteLoop_ok (i : Nat) (k : Nat) (ls : List (List Char))
    (h : i + k ≤ ls.length) :
    ∃ ls', bulkDeleteLoop (i : Int) k ls = some ls' ∧ ls'.length = ls.length - k := by
  induction k generalizing ls with
  | zero => exact ⟨ls, rfl, by omega⟩
  | succ k ih =>
    have hi : i < ls.length := by omega
    obtain ⟨ls', hloop, hlen⟩ := ih (listRemoveAt i ls)
      (by rw [length_listRemoveAt i ls hi]; omega)
    refine ⟨ls', ?_, ?_⟩
    · simp only [bulkDeleteLoop]
      rw [if_pos (by exact_mod_cast hi), pyDelAt_natCast ls i hi]
      exact hloop
    · rw [hlen, length_listRemoveAt i ls hi]
      omega

/-- C1 amended: from any valid state, a bulk-delete `"[N deleted
lines]"` succeeds and leaves exactly
`old_count - min N (old_count - (cursor_line - 1))` lines; this is zero —
the buffer becomes genuinely empty, with no collapse to `[""]` — exactly
when the cursor is on line 1 and `N` covers the whole buffer, and is at
least 1 in every other case. -/
theorem c1_bulk_delete_line_count (d : DocumentState) (content : List Char) (n : Nat)
    (hd : Inv d) (hbulk : bulkDeleteCount content = some n) :
    ∃ d', d.apply_deletion content = some d' ∧
      d'.lines.length = d.lines.length - min n (d.lines.length - (d.cursor_line - 1)) ∧
      (d'.lines.length = 0 ↔ d.cursor_line = 1 ∧ d.lines.length ≤ n) := by
  obtain ⟨h1, h2, _⟩ := hd
  have hc : content ≠ [] := by
    intro h
    subst h
    rw [show bulkDeleteCount ([] : List Char) = none from rfl] at hbulk
    cases hbulk
  have hcast : ((d.cursor_line : Int) - 1) = ((d.cursor_line - 1 : Nat) : Int) := by omega
  have hiter : iterCount n d.lines.length ((d.cursor_line - 1 : Nat) : Int) =
      min n (d.lines.length - (d.cursor_line - 1)) := by
    unfold iterCount
    omega
  obtain ⟨ls', hloop, hlen⟩ :=
    bulkDeleteLoop_ok (d.cursor_line - 1) (min n (d.lines.length - (d.cursor_line - 1)))
      d.lines (by omega)
  simp only [DocumentState.apply_deletion]
  rw [if_neg hc, hbulk]
  dsimp only
  rw [hcast, hiter, hloop]
  dsimp only
  by_cases hge : ((d.cursor_line - 1 : Nat) : Int) ≥ (ls'.length : Int)
  · rw [if_pos hge]
    exact ⟨_, rfl, by simpa using hlen, by rw [hlen]; omega⟩
  · rw [if_neg hge]
    exact ⟨_, rfl, by simpa using hlen, by rw [hlen]; omega⟩

theorem c1_witness :
    Inv ⟨["a".data, "b".data], 1, 0⟩ ∧
    bulkDeleteCount "[5 deleted lines]".data = some 5 ∧
    ∃ d', DocumentState.apply_deletion ⟨["a".data, "b".data], 1, 0⟩
        "[5 deleted lines]".data = some d' ∧
      d'.lines.length =
        (["a".data, "b".data] : List (List Char)).length -
          min 5 ((["a".data, "b".data] : List (List Char)).length - (1 - 1)) ∧
      (d'.lines.length = 0 ↔ (1 : Nat) = 1 ∧
        (["a".data, "b".data] : List (List Char)).length ≤ 5) :=
  ⟨by decide, by decide,
   c1_bulk_delete_line_count ⟨["a".data, "b".data], 1, 0⟩ "[5 deleted lines]".data 5
     (by decide) (by decide)⟩

/-! ### C7 — malformed bulk markers fall back to literal behaviour -/

theorem append_inj_of_length (s₁ t₁ s₂ t₂ : List α)
    (h : s₁ ++ t₁ = s₂ ++ t₂) (hl : s₁.length = s₂.length) : s₁ = s₂ ∧ t₁ = t₂ := by
  induction s₁ generalizing s₂ with
  | nil =>
    cases s₂ with
    | nil => exact ⟨rfl, h⟩
    | cons b s₂ => simp at hl
  | cons a s₁ ih =>
    cases s₂ with
    | nil => simp at hl
    | cons b s₂ =>
      simp only [List.cons_append, List.cons.injEq] at h
      simp only [List.length_cons, Nat.succ.injEq] at hl
      obtain ⟨h1, h2⟩ := ih s₂ h.2 hl
      exact ⟨by rw [h.1, h1], h2⟩

theorem startsWithChars_append_self (p u : List Char) :
    startsWithChars p (p ++ u) = true := by
  induction p with
  | nil => rfl
  | cons a p ih => simp [startsWithChars, ih]

theorem exists_of_startsWithChars (p s : List Char)
    (h : startsWithChars p s = true) : ∃ u, s = p ++ u := by
  induction p generalizing s with
  | nil => exact ⟨s, rfl⟩
  | cons a p ih =>
    cases s with
    | nil => simp [startsWithChars] at h
    | cons b s' =>
      simp only [startsWithChars, Bool.and_eq_true, beq_iff_eq] at h
      obtain ⟨u, hu⟩ := ih s' h.2
      exact ⟨u, by rw [hu, h.1]; rfl⟩

theorem startsWithChars_append_cancel (a b c : List Char) :
    startsWithChars (a ++ b) (a ++ c) = startsWithChars b c := by
  induction a with
  | nil => rfl
  | cons x a ih => simp [startsWithChars, ih]

theorem startsWithChars_cons_head_false (a : Char) (p t : List Char)
    (h : startsWithChars [a] t = false) : startsWithChars (a :: p) t = false := by
  cases t with
  | nil => rfl
  | cons b t' =>
    simp only [startsWithChars, Bool.and_eq_true] at h ⊢
    simp only [startsWithChars, Bool.and_true] at h
    simp [h]

theorem startsWithChars_single_cons (a c : Char) (x : List Char) :
    startsWithChars [a] (c :: x) = (a == c) := by
  simp [startsWithChars]

/-- If `rest` does not itself begin with `mid ++ "]"` or `mid ++ "s]"`,
then the regex tail cannot match at `rest ++ tail` either (for the two
concrete `tail`s used below, handled by `hshort` when `rest` is shorter
than `mid`). -/
theorem markerTail_append_eq_false (mid tail rest : List Char)
    (hshort : ∀ k, 1 ≤ k → k < mid.length →
      markerTail mid (mid.take k ++ tail) = false)
    (hne : rest ≠ [])
    (h1 : startsWithChars (mid ++ [']']) rest = false)
    (h2 : startsWithChars (mid ++ ['s', ']']) rest = false)
    (ht1 : startsWithChars [']'] tail = false)
    (ht2 : startsWithChars ['s'] tail = false) :
    markerTail mid (rest ++ tail) = false := by
  by_cases hp : startsWithChars mid (rest ++ tail) = true
  · obtain ⟨u, hu⟩ := exists_of_startsWithChars mid (rest ++ tail) hp
    by_cases hlen : mid.length ≤ rest.length
    · -- `mid` is a prefix of `rest`
      have hsplit : rest.take mid.length ++ (rest.drop mid.length ++ tail) = mid ++ u := by
        rw [← List.append_assoc, List.take_append_drop]
        exact hu
      obtain ⟨htake, _⟩ := append_inj_of_length _ _ _ _ hsplit
        (by rw [List.length_take]; omega)
      have hrest : rest = mid ++ rest.drop mid.length := by
        conv_lhs => rw [← List.take_append_drop mid.length rest]
        rw [htake]
      rw [hrest] at h1 h2
      rw [startsWithChars_append_cancel] at h1 h2
      rw [hrest, List.append_assoc]
      unfold markerTail
      rw [if_pos (startsWithChars_append_self mid _)]
      dsimp only
      rw [List.drop_left]
      cases hv : rest.drop mid.length with
      | nil =>
        rw [hv] at h1 h2
        simp only [List.nil_append]
        rw [if_neg (by simp [ht1]),
          if_neg (by simp [startsWithChars_cons_head_false 's' [']'] tail ht2])]
      | cons c v' =>
        rw [hv] at h1 h2
        simp only [List.cons_append]
        have hcond1 : startsWithChars [']'] (c :: (v' ++ tail)) = false := by
          rw [startsWithChars_single_cons] at h1 ⊢
          exact h1
        have hcond2 : startsWithChars ['s', ']'] (c :: (v' ++ tail)) = false := by
          simp only [startsWithChars] at h2 ⊢
          cases hsc : ('s' == c) with
          | false => simp [hsc]
          | true =>
            rw [hsc, Bool.true_and] at h2
            rw [Bool.true_and]
            cases v' with
            | nil => simpa using ht1
            | cons e v'' =>
              rw [startsWithChars_single_cons] at h2
              rw [List.cons_append, startsWithChars_single_cons]
              exact h2
        rw [if_neg (by simp [hcond1]), if_neg (by simp [hcond2])]
    · -- `rest` is a proper prefix of `mid`
      have hsplit : mid.take rest.length ++ (mid.drop rest.length ++ u) = rest ++ tail := by
        rw [← List.append_assoc, List.take_append_drop]
        exact hu.symm
      obtain ⟨htake, _⟩ := append_inj_of_length _ _ _ _ hsplit
        (by rw [List.length_take]; omega)
      have hrest : rest = mid.take rest.length := htake.symm
      rw [hrest]
      refine hshort rest.length ?_ (by omega)
      cases hr : rest with
      | nil => exact absurd hr hne
      | cons c r' => simp
  · unfold markerTail
    rw [if_neg (by simpa using hp)]

theorem takeWhile_append_not_all (p : Char → Bool) (X t : List Char)
    (h : X.all p = false) :
    (X ++ t).takeWhile p = X.takeWhile p ∧
    (X ++ t).dropWhile p = X.dropWhile p ++ t := by
  induction X with
  | nil => simp at h
  | cons c X ih =>
    by_cases hc : p c
    · have hX : X.all p = false := by
        simp only [List.all_cons, hc, Bool.true_and] at h
        exact h
      obtain ⟨ht, hd2⟩ := ih hX
      constructor
      · simp only [List.cons_append, List.takeWhile_cons_of_pos hc, ht]
      · simp only [List.cons_append, List.dropWhile_cons_of_pos hc, hd2]
    · constructor
      · simp only [List.cons_append, List.takeWhile_cons_of_neg hc]
      · simp only [List.cons_append, List.dropWhile_cons_of_neg hc]

theorem dropWhile_ne_nil (p : Char → Bool) (X : List Char) (h : X.all p = false) :
    X.dropWhile p ≠ [] := by
  induction X with
  | nil => simp at h
  | cons c X ih =>
    by_cases hc : p c
    · have hX : X.all p = false := by
        simp only [List.all_cons, hc, Bool.true_and] at h
        exact h
      simpa [List.dropWhile_cons_of_pos hc] using ih hX
    · simp [List.dropWhile_cons_of_neg hc]

/-- The regex rejects `"[" ++ X ++ tail` whenever `X` is not a plain digit
run (per the digit table `dig`) and its digit-run remainder does not
itself open a marker tail. -/
theorem matchMarker_bracket_none (dig : Char → Bool) (val : Char → Nat)
    (mid tail X : List Char)
    (hshort : ∀ k, 1 ≤ k → k < mid.length →
      markerTail mid (mid.take k ++ tail) = false)
    (ht1 : startsWithChars [']'] tail = false)
    (ht2 : startsWithChars ['s'] tail = false)
    (htail : tail.takeWhile dig = [])
    (hnum : X = [] ∨ X.all dig = false)
    (h1 : startsWithChars (mid ++ [']']) (X.dropWhile dig) = false)
    (h2 : startsWithChars (mid ++ ['s', ']']) (X.dropWhile dig) = false) :
    matchMarkerW dig val mid ('[' :: (X ++ tail)) = none := by
  unfold matchMarkerW
  dsimp only
  rw [if_pos rfl]
  rcases hnum with rfl | hall
  · simp [htail]
  · obtain ⟨ht, hd2⟩ := takeWhile_append_not_all dig X tail hall
    rw [ht, hd2]
    by_cases hds : (X.takeWhile dig).isEmpty
    · rw [if_pos hds]
    · rw [if_neg hds]
      have hne : X.dropWhile dig ≠ [] := dropWhile_ne_nil dig X hall
      rw [if_neg (by
        simp [markerTail_append_eq_false mid tail _ hshort hne h1 h2 ht1 ht2])]

theorem markerTailNew_short (k : Nat) (hk1 : 1 ≤ k) (hk2 : k < midNew.length) :
    markerTail midNew (midNew.take k ++ " new lines]".data) = false := by
  have h9 : midNew.length = 9 := by decide
  rw [h9] at hk2
  interval_cases k <;> decide

theorem markerTailDel_short (k : Nat) (hk1 : 1 ≤ k) (hk2 : k < midDel.length) :
    markerTail midDel (midDel.take k ++ " deleted lines]".data) = false := by
  have h13 : midDel.length = 13 := by decide
  rw [h13] at hk2
  interval_cases k <;> decide

theorem bulkInsertCountW_none (dig : Char → Bool) (val : Char → Nat)
    (content : List Char) (h : matchMarkerW dig val midNew content = none) :
    bulkInsertCountW dig val content = none := by
  unfold bulkInsertCountW
  split
  · exact h
  · rfl

theorem bulkDeleteCountW_none (dig : Char → Bool) (val : Char → Nat)
    (content : List Char) (h : matchMarkerW dig val midDel content = none) :
    bulkDeleteCountW dig val content = none := by
  unfold bulkDeleteCountW
  split
  · exact h
  · rfl

/-- C7 amended: for content `"[" ++ X ++ " new lines]"` (resp. deleted)
where `X` is empty or not a pure digit run — judged by *any* digit
classification `dig`, in particular the interpreter's Unicode `\d`
tables, for which the only fact used is that a space is never a digit —
*and* where the remainder of `X` after its leading digit run does not
itself open a marker tail (`" new line]"`, `" new lines]"`, resp. the
deleted forms — the extra condition forced by `re.match`'s prefix
semantics, see `c7_counterexample`), insert splices the bracket text
literally into the current line, and delete falls back to the
single-character deletion rules.  At the true tables
`apply_keystrokeW`/`apply_deletionW` are the program's operations; the
ASCII instance is the concrete embedding (`apply_keystrokeW_ascii`). -/
theorem c7_literal_fallback (dig : Char → Bool) (val : Char → Nat)
    (d : DocumentState) (X : List Char) (hd : Inv d)
    (hsp : dig ' ' = false)
    (hnum : X = [] ∨ X.all dig = false)
    (hnew1 : startsWithChars (midNew ++ [']']) (X.dropWhile dig) = false)
    (hnew2 : startsWithChars (midNew ++ ['s', ']']) (X.dropWhile dig) = false)
    (hdel1 : startsWithChars (midDel ++ [']']) (X.dropWhile dig) = false)
    (hdel2 : startsWithChars (midDel ++ ['s', ']']) (X.dropWhile dig) = false) :
    apply_keystrokeW dig val d ('[' :: X ++ " new lines]".data) =
      some ⟨listSetAt (d.cursor_line - 1)
        ((currLine d).take d.cursor_col ++ ('[' :: X ++ " new lines]".data) ++
          (currLine d).drop d.cursor_col) d.lines,
        d.cursor_line, d.cursor_col + ('[' :: X ++ " new lines]".data).length⟩ ∧
    apply_deletionW dig val d ('[' :: X ++ " deleted lines]".data) =
      singleCharDelete d (currLine d) ((d.cursor_line : Int) - 1) := by
  obtain ⟨h1, h2, h3⟩ := hd
  have hlt : d.cursor_line - 1 < d.lines.length := by omega
  have htailNew : (" new lines]".data).takeWhile dig = [] := by
    show (' ' :: "new lines]".data).takeWhile dig = []
    exact List.takeWhile_cons_of_neg (by simp [hsp])
  have htailDel : (" deleted lines]".data).takeWhile dig = [] := by
    show (' ' :: "deleted lines]".data).takeWhile dig = []
    exact List.takeWhile_cons_of_neg (by simp [hsp])
  have hmmNew : matchMarkerW dig val midNew ('[' :: X ++ " new lines]".data) = none :=
    matchMarker_bracket_none dig val midNew " new lines]".data X markerTailNew_short
      (by decide) (by decide) htailNew hnum hnew1 hnew2
  have hmmDel : matchMarkerW dig val midDel ('[' :: X ++ " deleted lines]".data) = none :=
    matchMarker_bracket_none dig val midDel " deleted lines]".data X markerTailDel_short
      (by decide) (by decide) htailDel hnum hdel1 hdel2
  constructor
  · have hcon : ('[' :: X ++ " new lines]".data) ≠ [] := by simp
    have hnl : ¬('[' :: X ++ " new lines]".data = ['\n'] ∨
        '[' :: X ++ " new lines]".data = ['\r', '\n']) := by
      rintro (h | h) <;> (injection h with h1 h2; exact absurd h1 (by decide))
    unfold apply_keystrokeW
    rw [if_neg hcon, bulkInsertCountW_none dig val _ hmmNew,
      show ((d.cursor_line : Int) - 1) = ((d.cursor_line - 1 : Nat) : Int) by omega]
    dsimp only
    rw [pyGet_natCast _ _ hlt, get?_currLine d hlt]
    dsimp only
    rw [if_neg hnl, pySet_natCast _ _ _ hlt]
  · have hcon : ('[' :: X ++ " deleted lines]".data) ≠ [] := by simp
    unfold apply_deletionW
    rw [if_neg hcon, bulkDeleteCountW_none dig val _ hmmDel]
    dsimp only
    rw [show ((d.cursor_line : Int) - 1) = ((d.cursor_line - 1 : Nat) : Int) by omega,
      pyGet_natCast _ _ hlt, get?_currLine d hlt]

theorem c7_witness :
    apply_keystrokeW Char.isDigit digitVal ⟨["ab".data], 1, 1⟩
      ('[' :: "-3".data ++ " new lines]".data) =
      some ⟨listSetAt (1 - 1)
        ((currLine ⟨["ab".data], 1, 1⟩).take 1 ++ ('[' :: "-3".data ++ " new lines]".data) ++
          (currLine ⟨["ab".data], 1, 1⟩).drop 1) ["ab".data],
        1, 1 + ('[' :: "-3".data ++ " new lines]".data).length⟩ ∧
    apply_deletionW Char.isDigit digitVal ⟨["ab".data], 1, 1⟩
      ('[' :: "-3".data ++ " deleted lines]".data) =
      singleCharDelete ⟨["ab".data], 1, 1⟩ (currLine ⟨["ab".data], 1, 1⟩) ((1 : Int) - 1) :=
  c7_literal_fallback Char.isDigit digitVal ⟨["ab".data], 1, 1⟩ "-3".data (by decide)
    (by decide) (by decide) (by decide) (by decide) (by decide) (by decide)

end WriteControl
